import Mathlib

/-!
Verification of the `util::FileCatalogMetadataExtras` service of the lardata
repository fragment (header `src/Utilities/FileCatalogMetadataExtras.h`).

The repository fragment ships only the class declaration of the service; the
member-function bodies (the per-file metadata tracker callbacks, the
`fillMetadata` conversion, the `expandTemplate` filename expander and the
`renameOutputFile` policy) live in a translation unit that is not part of the
fragment.  Following the specification, those operations are modelled here
from the spec's own description of them (each such definition carries a
`Modelled from the spec:` doc comment naming the missing piece).  The data
model (`PerFileMetadata` and the service's state fields) is taken directly
from the header declaration.

Modelling conventions: C++ `std::set` becomes a duplicate-free insertion
list, `std::multimap` becomes a list of pairs, `std::map` becomes an
association list with key-replacing insertion, `time_t` wall-clock stamps
become `Nat`, and decimal rendering of numbers is a fuel-based digit
function.  Logging is represented by a boolean warning flag in the result of
the operation that would log.
-/

namespace FCMeta

/-- Decimal digits of a natural number, most significant first; `fuel`
bounds the recursion depth and any `fuel ≥ n + 1` is enough. -/
def digitsAux : Nat → Nat → List Char
  | 0, _ => []
  | fuel+1, n => if n < 10 then [Nat.digitChar n] else digitsAux fuel (n / 10) ++ [Nat.digitChar (n % 10)]

/-- Decimal rendering of a natural number, the model of the C++ decimal
formatting of run, subrun and event numbers. -/
def natToString (n : Nat) : String := String.mk (digitsAux (n+1) n)

/-- `std::set` insertion modelled on duplicate-free lists: insert the
element if it is not yet present. -/
def insertSet {α : Type} [DecidableEq α] (x : α) (s : List α) : List α :=
  if x ∈ s then s else s ++ [x]

/-- Embedding of the `PerFileMetadata` struct declared in
`FileCatalogMetadataExtras.h` (lines 102-122): run-number set, subrun-number
set, parent set, first/last event, event count, start/end times and the
name-value multimap. -/
structure PerFileMetadata where
  fRunNumbers : List Nat
  fSubRunNumbers : List Nat
  fParents : List String
  fFirstEvent : Nat
  fLastEvent : Nat
  fEventCount : Nat
  fStartTime : Nat
  fEndTime : Nat
  fNVPairs : List (String × String)
  deriving Repr, DecidableEq

/-- The default constructor of `PerFileMetadata`: zero events and times,
empty sets and multimap. -/
def PerFileMetadata.default : PerFileMetadata :=
  ⟨[], [], [], 0, 0, 0, 0, 0, []⟩

/-- The data delivered by one event notification: run id, subrun id, event
id and the originating input file path. -/
structure EvtData where
  run : Nat
  subRun : Nat
  event : Nat
  parent : String
  deriving Repr, DecidableEq

/-- Modelled from the spec: the per-event update of one open record
(`preEvent`/`postEvent`, whose bodies are not in the fragment).  Adds the
run id, subrun id and parent path to the respective sets, sets `fFirstEvent`
on the first call since open, always updates `fLastEvent`, and increments
`fEventCount`. -/
def updateEvent (r : PerFileMetadata) (e : EvtData) : PerFileMetadata :=
  { r with
    fRunNumbers := insertSet e.run r.fRunNumbers
    fSubRunNumbers := insertSet e.subRun r.fSubRunNumbers
    fParents := insertSet e.parent r.fParents
    fFirstEvent := if r.fEventCount = 0 then e.event else r.fFirstEvent
    fLastEvent := e.event
    fEventCount := r.fEventCount + 1 }

/-- Modelled from the spec: wall-clock timestamp formatting used by
`fillMetadata` (body not in the fragment); the model renders the `time_t`
value in decimal, which is faithful for every claim checked here since none
depends on the concrete format of the timestamp strings. -/
def formatTime (t : Nat) : String := natToString t

/-- Modelled from the spec: `PerFileMetadata::fillMetadata` (body not in the
fragment) converts a finalized record into name-value pairs: one `"runs"`
entry per run number, one `"subRuns"` entry per subrun number, one
`"parents"` entry per parent path, then `"firstEvent"`, `"lastEvent"`,
`"eventCount"`, `"startTime"`, `"endTime"`, then every pair of the record's
multimap. -/
def fillMetadata (r : PerFileMetadata) : List (String × String) :=
  (r.fRunNumbers.map (fun n => ("runs", natToString n)))
  ++ (r.fSubRunNumbers.map (fun n => ("subRuns", natToString n)))
  ++ (r.fParents.map (fun p => ("parents", p)))
  ++ [("firstEvent", natToString r.fFirstEvent),
      ("lastEvent", natToString r.fLastEvent),
      ("eventCount", natToString r.fEventCount),
      ("startTime", formatTime r.fStartTime),
      ("endTime", formatTime r.fEndTime)]
  ++ r.fNVPairs

/-- Job-level configuration of the tracker (fcl parameters `Metadata` and
`CopyMetadataAttributes`): the per-job name-value pairs and the attributes
copied from the input file, both merged into a record when it is
finalized. -/
structure Config where
  perJobMetadata : List (String × String)
  copiedAttributes : List (String × String)
  deriving Repr, DecidableEq

/-- Embedding of the service's mutable state (`fPerFileMetadataMap`,
`fOutputFiles`, `fOutputFileCount` in the header): the per-file record map
keyed by output file name, the list of currently open output files, and the
count of output files produced so far in the job. -/
structure TrackerState where
  perFileMap : List (String × PerFileMetadata)
  outputFiles : List String
  outputFileCount : Nat
  deriving Repr, DecidableEq

/-- The state at job start: no records, no open files, zero files
produced. -/
def initialState : TrackerState := ⟨[], [], 0⟩

/-- `std::map` insert-or-assign on an association list: any entry with the
same key is replaced. -/
def mapInsert (k : String) (v : PerFileMetadata) (l : List (String × PerFileMetadata)) :
    List (String × PerFileMetadata) :=
  (l.filter (fun e => e.1 ≠ k)) ++ [(k, v)]

/-- `std::map` lookup on an association list. -/
def mapLookup (k : String) : List (String × PerFileMetadata) → Option PerFileMetadata
  | [] => none
  | e :: rest => if e.1 = k then some e.2 else mapLookup k rest

/-- Modelled from the spec: `postOpenOutputFile` (body not in the fragment).
Inserts a fresh record keyed by the path with `fStartTime` set to the
current wall-clock time (resetting any existing record for a reused path),
marks the path as a currently open output file, and counts one more output
file produced in the job. -/
def onOutputFileOpened (s : TrackerState) (path : String) (t : Nat) : TrackerState :=
  { perFileMap := mapInsert path { PerFileMetadata.default with fStartTime := t } s.perFileMap
    outputFiles := if path ∈ s.outputFiles then s.outputFiles else path :: s.outputFiles
    outputFileCount := s.outputFileCount + 1 }

/-- Modelled from the spec: the event notification (`preEvent`/`postEvent`,
bodies not in the fragment) applies `updateEvent` to the record of every
currently open output file, since the host framework does not report
per-module event routing. -/
def onEventProcessed (s : TrackerState) (e : EvtData) : TrackerState :=
  { s with perFileMap := s.perFileMap.map (fun pr =>
      (pr.1, if pr.1 ∈ s.outputFiles then updateEvent pr.2 e else pr.2)) }

/-- Modelled from the spec: finalization of a record at close (part of
`addPerFileMetadata`, body not in the fragment): sets `fEndTime` to the
close time and merges the configured per-job pairs and the copied
input-file attributes into the record's multimap. -/
def finalizeRecord (cfg : Config) (r : PerFileMetadata) (t : Nat) : PerFileMetadata :=
  { r with fEndTime := t,
           fNVPairs := r.fNVPairs ++ cfg.perJobMetadata ++ cfg.copiedAttributes }

/-- Result of a close notification: the new tracker state, the finalized
record emitted to the metadata sink (if any), and whether a warning was
logged. -/
structure CloseResult where
  state : TrackerState
  emitted : Option PerFileMetadata
  warned : Bool
  deriving Repr, DecidableEq

/-- Modelled from the spec: `postCloseOutputFile` (body not in the
fragment).  If a record for the path exists and the path is a currently
open output file, the record is finalized at the current wall-clock time,
re-stored in the map (retained for the rest of the job), removed from the
open list and emitted; otherwise the notification logs a warning and is a
no-op. -/
def onOutputFileClosed (cfg : Config) (s : TrackerState) (path : String) (t : Nat) :
    CloseResult :=
  match mapLookup path s.perFileMap with
  | none => ⟨s, none, true⟩
  | some r =>
    if path ∈ s.outputFiles then
      ⟨{ s with perFileMap := mapInsert path (finalizeRecord cfg r t) s.perFileMap,
                outputFiles := s.outputFiles.filter (fun q => q ≠ path) },
       some (finalizeRecord cfg r t), false⟩
    else ⟨s, none, true⟩

/-- Folding the event notification over a list of events. -/
def runEvents (s : TrackerState) (es : List EvtData) : TrackerState :=
  es.foldl onEventProcessed s

/-- One notification from the host framework, with the wall-clock time at
which file lifecycle notifications arrive. -/
inductive TraceEvent where
  | fileOpen (path : String) (time : Nat)
  | procEvent (e : EvtData)
  | fileClose (path : String) (time : Nat)
  deriving Repr, DecidableEq

/-- One step of the tracker on a notification. -/
def step (cfg : Config) (s : TrackerState) : TraceEvent → TrackerState
  | .fileOpen p t => onOutputFileOpened s p t
  | .procEvent e => onEventProcessed s e
  | .fileClose p t => (onOutputFileClosed cfg s p t).state

/-- Running the tracker over a whole notification trace. -/
def runTracker (cfg : Config) (s : TrackerState) (tr : List TraceEvent) : TrackerState :=
  tr.foldl (step cfg) s

/-- The wall-clock times of a trace are nondecreasing, starting no earlier
than `t` (event notifications carry no time of their own). -/
def timesMonoFrom (t : Nat) : List TraceEvent → Bool
  | [] => true
  | .fileOpen _ t' :: rest => decide (t ≤ t') && timesMonoFrom t' rest
  | .procEvent _ :: rest => timesMonoFrom t rest
  | .fileClose _ t' :: rest => decide (t ≤ t') && timesMonoFrom t' rest

/-!  The filename template expander (`expandTemplate`, body not in the
fragment), modelled from the spec's grammar: the template is scanned left to
right, literal text is copied verbatim, a field is introduced by the two
characters dollar and open brace and closed by the next close brace; within
a field the first token is the field name and an optional second token
(separated by whitespace) is an argument. -/

/-- Reads up to the closing brace of a field: returns the field content and
the remainder of the template, or `none` if the field is unterminated. -/
def takeField : List Char → Option (List Char × List Char)
  | [] => none
  | c :: rest =>
    if c = '}' then some ([], rest)
    else match takeField rest with
         | none => none
         | some (f, r) => some (c :: f, r)

/-- Leading spaces removed. -/
def dropSpaces (cs : List Char) : List Char := cs.dropWhile (fun c => c = ' ')

/-- The next whitespace-delimited token. -/
def takeToken (cs : List Char) : List Char := cs.takeWhile (fun c => c ≠ ' ')

/-- Splits a field's content into its name and its optional argument. -/
def fieldNameArg (cs : List Char) : List Char × Option (List Char) :=
  let cs1 := dropSpaces cs
  let name := takeToken cs1
  let rest := dropSpaces (cs1.dropWhile (fun c => c ≠ ' '))
  (name, if rest = [] then none else some (takeToken rest))

/-- Parses a nonempty all-digit token as a natural number. -/
def parseNatChars (cs : List Char) : Option Nat :=
  if cs = [] then none
  else cs.foldl (fun acc c =>
    match acc with
    | none => none
    | some n => if c.isDigit then some (n * 10 + (c.toNat - 48)) else none) (some 0)

/-- Context available to the expander: the 1-based sequence number of the
current output file (the service's `fOutputFileCount`), the last seen input
file path, the current date (eight digits) and time of day (six digits),
and the process environment as an association list. -/
structure ExpandContext where
  fileIndex : Nat
  inputFile : List Char
  curDate : List Char
  curTime : List Char
  env : List (List Char × List Char)

/-- Environment-variable lookup. -/
def envLookup (k : List Char) : List (List Char × List Char) → Option (List Char)
  | [] => none
  | (k', v) :: rest => if k' = k then some v else envLookup k rest

/-- The input file name with directory components removed (everything after
the last path separator). -/
def baseNameChars (cs : List Char) : List Char :=
  ((cs.reverse).takeWhile (fun c => c ≠ '/')).reverse

/-- The input file path with the final path-separator-delimited component
removed (up to, but not including, the final separator). -/
def dirNameChars (cs : List Char) : List Char :=
  (((cs.reverse).dropWhile (fun c => c ≠ '/')).drop 1).reverse

/-- Strips `sfx` from the end of `cs` when `cs` ends with it. -/
def stripSuffixChars (sfx cs : List Char) : List Char :=
  if sfx.length ≤ cs.length ∧ cs.drop (cs.length - sfx.length) = sfx
  then cs.take (cs.length - sfx.length) else cs

/-- The numeric start value of the `num`/`bnum` fields: the argument parsed
as a non-negative integer, defaulting to 1. -/
def numStart (arg : Option (List Char)) : Nat :=
  match arg with
  | none => 1
  | some a => (parseNatChars a).getD 1

/-- The `num` field: the decimal sequence number of the current output
file, counting from the start value. -/
def numField (ctx : ExpandContext) (arg : Option (List Char)) : List Char :=
  (natToString (numStart arg + ctx.fileIndex - 1)).data

/-- Modelled from the spec: expansion of a single recognized field of the
rename template (part of `expandTemplate`, body not in the fragment). -/
def expandField (ctx : ExpandContext) (name : List Char) (arg : Option (List Char)) :
    List Char :=
  if name = "num".data then numField ctx arg
  else if name = "bnum".data then
    (if ctx.fileIndex = 1 then [] else numField ctx arg)
  else if name = "base".data then
    (match arg with
     | none => baseNameChars ctx.inputFile
     | some sfx => stripSuffixChars sfx (baseNameChars ctx.inputFile))
  else if name = "dir".data then dirNameChars ctx.inputFile
  else if name = "path".data then
    (match arg with
     | none => ctx.inputFile
     | some sfx => stripSuffixChars sfx ctx.inputFile)
  else if name = "date".data then ctx.curDate
  else if name = "time".data then ctx.curTime
  else match envLookup name ctx.env with
       | some v => v
       | none => arg.getD []

/-- The left-to-right scan of the template; `fuel` bounds the recursion and
any `fuel` at least the length of the character list is enough. -/
def scanAux (ctx : ExpandContext) : Nat → List Char → Except String (List Char)
  | _, [] => Except.ok []
  | 0, _ :: _ => Except.error "scan fuel exhausted"
  | fuel+1, '$' :: '{' :: rest =>
    (match takeField rest with
     | none => Except.error "unterminated field in rename template"
     | some (f, r) =>
       match scanAux ctx fuel r with
       | Except.error e => Except.error e
       | Except.ok tail =>
         Except.ok (expandField ctx (fieldNameArg f).1 (fieldNameArg f).2 ++ tail))
  | fuel+1, c :: rest =>
    match scanAux ctx fuel rest with
    | Except.error e => Except.error e
    | Except.ok tail => Except.ok (c :: tail)

/-- Modelled from the spec: `expandTemplate` (body not in the fragment),
the pure expansion of the rename template in a given context; a malformed
(unterminated) field is a configuration error surfaced at expansion time. -/
def expandTemplate (ctx : ExpandContext) (tmpl : String) : Except String String :=
  (scanAux ctx tmpl.data.length tmpl.data).map String.mk

/-- Modelled from the spec: the renaming policy of `renameOutputFile` (body
not in the fragment), over a filesystem abstracted as the list of existing
paths.  If a file already exists at the destination and overwrite is
disabled, the rename is skipped with a logged warning (the boolean in the
result) and the filesystem is unchanged; otherwise the file is renamed,
replacing any existing file at the destination. -/
def renameOutputFile (fs : List String) (oldName newName : String) (overwrite : Bool) :
    List String × Bool :=
  if newName ∈ fs ∧ overwrite = false then (fs, true)
  else ((fs.filter (fun p => p ≠ oldName ∧ p ≠ newName)) ++ [newName], false)

/-- A fixed sample expansion context for the k-th output file of a job. -/
def sampleCtx (k : Nat) : ExpandContext :=
  ⟨k, "/a/b/event.root".data, "20261011".data, "123456".data, []⟩

/-- The last element of the nonempty event list `e :: es`. -/
def lastEvt : List EvtData → EvtData → EvtData
  | [], e => e
  | x :: xs, _ => lastEvt xs x

/-- The complete open-events-close scenario for a single output file: the
file `p` is opened at time `t1`, the events `es` are processed, and the
file is closed at time `t2`. -/
def openRunClose (cfg : Config) (p : String) (t1 : Nat) (es : List EvtData) (t2 : Nat) :
    CloseResult :=
  onOutputFileClosed cfg (runEvents (onOutputFileOpened initialState p t1) es) p t2

/-- Time invariant of the tracker at current wall-clock time `t`: the start
time of every tracked record is at most `t`, and every finalized (closed)
record has its start time at most its end time. -/
def timeInvariant (s : TrackerState) (t : Nat) : Prop :=
  ∀ p r, (p, r) ∈ s.perFileMap →
    r.fStartTime ≤ t ∧ (p ∉ s.outputFiles → r.fStartTime ≤ r.fEndTime)

/-- A tracker state with two simultaneously open output files. -/
def demoState : TrackerState :=
  ⟨[("a", PerFileMetadata.default), ("b", PerFileMetadata.default)], ["a", "b"], 2⟩

/-- A sample event notification. -/
def demoEvt : EvtData := ⟨1, 2, 3, "in.root"⟩

/-! Lemmas about the association-list map operations. -/

theorem mem_mapInsert {k : String} {v : PerFileMetadata}
    {l : List (String × PerFileMetadata)} {q : String} {r : PerFileMetadata} :
    (q, r) ∈ mapInsert k v l ↔ (q = k ∧ r = v) ∨ ((q, r) ∈ l ∧ q ≠ k) := by
  simp only [mapInsert, List.mem_append, List.mem_filter, List.mem_singleton,
    Prod.mk.injEq, decide_eq_true_eq]
  tauto

theorem mapLookup_eq_some_mem {l : List (String × PerFileMetadata)}
    {k : String} {r : PerFileMetadata} (h : mapLookup k l = some r) : (k, r) ∈ l := by
  induction l with
  | nil => simp [mapLookup] at h
  | cons a l ih =>
    rw [mapLookup] at h
    by_cases ha : a.1 = k
    · rw [if_pos ha] at h
      injection h with h2
      exact List.mem_cons.mpr (Or.inl (by rw [← ha, ← h2]))
    · rw [if_neg ha] at h
      exact List.mem_cons.mpr (Or.inr (ih h))

theorem mapLookup_mapInsert_self (l : List (String × PerFileMetadata))
    (k : String) (v : PerFileMetadata) : mapLookup k (mapInsert k v l) = some v := by
  induction l with
  | nil => simp [mapInsert, mapLookup]
  | cons a l ih =>
    by_cases ha : a.1 = k
    · simpa [mapInsert, List.filter_cons, ha] using ih
    · simpa [mapInsert, List.filter_cons, ha, mapLookup] using ih

theorem mapLookup_map_update (l : List (String × PerFileMetadata)) (k : String)
    (g : String → PerFileMetadata → PerFileMetadata) :
    mapLookup k (l.map (fun pr => (pr.1, g pr.1 pr.2))) = (mapLookup k l).map (g k) := by
  induction l with
  | nil => rfl
  | cons a l ih =>
    by_cases ha : a.1 = k
    · simp [mapLookup, ha]
    · simp [mapLookup, ha, ih]

/-! Lemmas about the event notification and folds of the per-event update. -/

theorem lookup_onEventProcessed (s : TrackerState) (e : EvtData) (p : String) :
    mapLookup p (onEventProcessed s e).perFileMap
      = (mapLookup p s.perFileMap).map
          (fun r => if p ∈ s.outputFiles then updateEvent r e else r) :=
  mapLookup_map_update s.perFileMap p
    (fun q r => if q ∈ s.outputFiles then updateEvent r e else r)

theorem runEvents_lookup (es : List EvtData) :
    ∀ (s : TrackerState) (r : PerFileMetadata) (p : String),
      p ∈ s.outputFiles → mapLookup p s.perFileMap = some r →
      mapLookup p (runEvents s es).perFileMap = some (es.foldl updateEvent r)
        ∧ (runEvents s es).outputFiles = s.outputFiles := by
  induction es with
  | nil => intro s r p _ hr; exact ⟨hr, rfl⟩
  | cons e es ih =>
    intro s r p hp hr
    have h1 : mapLookup p (onEventProcessed s e).perFileMap = some (updateEvent r e) := by
      rw [lookup_onEventProcessed, hr]
      simp [hp]
    exact ih (onEventProcessed s e) (updateEvent r e) p hp h1

theorem foldl_updateEvent_count (es : List EvtData) :
    ∀ r : PerFileMetadata,
      (es.foldl updateEvent r).fEventCount = r.fEventCount + es.length := by
  induction es with
  | nil => intro r; simp
  | cons e es ih =>
    intro r
    rw [List.foldl_cons, ih (updateEvent r e)]
    simp only [updateEvent, List.length_cons]
    omega

theorem foldl_updateEvent_first (es : List EvtData) :
    ∀ r : PerFileMetadata, r.fEventCount ≠ 0 →
      (es.foldl updateEvent r).fFirstEvent = r.fFirstEvent := by
  induction es with
  | nil => intro r _; rfl
  | cons e es ih =>
    intro r h
    have h2 : (updateEvent r e).fEventCount ≠ 0 := by simp [updateEvent]
    have := ih (updateEvent r e) h2
    simpa [updateEvent, if_neg h] using this

theorem foldl_updateEvent_last (es : List EvtData) :
    ∀ (e : EvtData) (r : PerFileMetadata),
      (List.foldl updateEvent r (e :: es)).fLastEvent = (lastEvt es e).event := by
  induction es with
  | nil => intro e r; rfl
  | cons x xs ih =>
    intro e r
    simpa [lastEvt] using ih x (updateEvent r e)

theorem openRunClose_emitted (cfg : Config) (p : String) (t1 : Nat)
    (es : List EvtData) (t2 : Nat) :
    (openRunClose cfg p t1 es t2).emitted
      = some (finalizeRecord cfg
          (es.foldl updateEvent { PerFileMetadata.default with fStartTime := t1 }) t2) := by
  have hs1p : p ∈ (onOutputFileOpened initialState p t1).outputFiles := by
    simp [onOutputFileOpened, initialState]
  have hs1l : mapLookup p (onOutputFileOpened initialState p t1).perFileMap
      = some { PerFileMetadata.default with fStartTime := t1 } := by
    simp [onOutputFileOpened]
    exact mapLookup_mapInsert_self _ _ _
  obtain ⟨hl, ho⟩ := runEvents_lookup es _ _ p hs1p hs1l
  rw [openRunClose, onOutputFileClosed, hl]
  have hp2 : p ∈ (runEvents (onOutputFileOpened initialState p t1) es).outputFiles := by
    rw [ho]; exact hs1p
  simp [hp2]

/-! Lemmas establishing the time invariant along every monotone trace. -/

theorem timeInvariant_mono {s : TrackerState} {t t' : Nat}
    (h : timeInvariant s t) (htt : t ≤ t') : timeInvariant s t' :=
  fun p r hm => ⟨(h p r hm).1.trans htt, (h p r hm).2⟩

theorem timeInvariant_open {s : TrackerState} {t : Nat}
    (h : timeInvariant s t) (p : String) {t' : Nat} (htt : t ≤ t') :
    timeInvariant (onOutputFileOpened s p t') t' := by
  intro q r hm
  have hof : q ∈ s.outputFiles → q ∈ (onOutputFileOpened s p t').outputFiles := by
    intro hqs
    by_cases hps : p ∈ s.outputFiles
    · simpa [onOutputFileOpened, hps] using hqs
    · simp [onOutputFileOpened, hps]
      exact Or.inr hqs
  rcases mem_mapInsert.mp hm with ⟨hq, hr⟩ | ⟨hm', hq⟩
  · subst hq
    subst hr
    refine ⟨le_refl t', fun hno => absurd ?_ hno⟩
    by_cases hps : q ∈ s.outputFiles
    · simp [onOutputFileOpened, hps]
    · simp [onOutputFileOpened, hps]
  · have hold := h q r hm'
    exact ⟨hold.1.trans htt, fun hno => hold.2 (fun hqs => hno (hof hqs))⟩

theorem timeInvariant_evt {s : TrackerState} {t : Nat}
    (h : timeInvariant s t) (e : EvtData) :
    timeInvariant (onEventProcessed s e) t := by
  intro q r hm
  rcases List.mem_map.mp hm with ⟨pr, hpr, heq⟩
  have hinv := h pr.1 pr.2 hpr
  injection heq with hq hr
  subst hq
  by_cases hopen : pr.1 ∈ s.outputFiles
  · rw [if_pos hopen] at hr
    subst hr
    exact ⟨hinv.1, fun hno => absurd hopen hno⟩
  · rw [if_neg hopen] at hr
    subst hr
    exact ⟨hinv.1, fun hno => hinv.2 hno⟩

theorem timeInvariant_close {cfg : Config} {s : TrackerState} {t : Nat}
    (h : timeInvariant s t) (p : String) {t' : Nat} (htt : t ≤ t') :
    timeInvariant (onOutputFileClosed cfg s p t').state t' := by
  cases hl : mapLookup p s.perFileMap with
  | none =>
    simp only [onOutputFileClosed, hl]
    exact timeInvariant_mono h htt
  | some r0 =>
    by_cases hps : p ∈ s.outputFiles
    · simp only [onOutputFileClosed, hl, if_pos hps]
      intro q r hm
      rcases mem_mapInsert.mp hm with ⟨hq, hr⟩ | ⟨hm', hq⟩
      · subst hq
        subst hr
        have hr0 := h q r0 (mapLookup_eq_some_mem hl)
        exact ⟨hr0.1.trans htt, fun _ => hr0.1.trans htt⟩
      · have hold := h q r hm'
        refine ⟨hold.1.trans htt, fun hno => hold.2 (fun hqs => hno ?_)⟩
        simp [List.mem_filter, hqs, hq]
    · simp only [onOutputFileClosed, hl, if_neg hps]
      exact timeInvariant_mono h htt

theorem runTracker_timeInvariant (cfg : Config) (tr : List TraceEvent) :
    ∀ (s : TrackerState) (t : Nat),
      timeInvariant s t → timesMonoFrom t tr = true →
      ∃ t', timeInvariant (runTracker cfg s tr) t' := by
  induction tr with
  | nil => intro s t h _; exact ⟨t, h⟩
  | cons ev tr ih =>
    intro s t h hmono
    cases ev with
    | fileOpen p t1 =>
      rw [timesMonoFrom, Bool.and_eq_true, decide_eq_true_eq] at hmono
      exact ih _ t1 (timeInvariant_open h p hmono.1) hmono.2
    | procEvent e =>
      exact ih _ t (timeInvariant_evt h e) hmono
    | fileClose p t1 =>
      rw [timesMonoFrom, Bool.and_eq_true, decide_eq_true_eq] at hmono
      exact ih _ t1 (timeInvariant_close h p hmono.1) hmono.2

/-! The claims. -/

/-- Claim C1: for every sequence consisting of an open of `p`, then `N`
event notifications, then a close of `p`, the finalized record for `p` has
`fEventCount` equal to `N`. -/
theorem c1_eventCount_is_length (cfg : Config) (p : String) (t1 t2 : Nat)
    (es : List EvtData) :
    (openRunClose cfg p t1 es t2).emitted.map PerFileMetadata.fEventCount
      = some es.length := by
  rw [openRunClose_emitted]
  simp [finalizeRecord, foldl_updateEvent_count, PerFileMetadata.default]

/-- Claim C2: for every open-events-close sequence with at least one event
notification, the finalized record's `fFirstEvent` is the event id of the
first notification after the open, and `fLastEvent` the event id of the
last notification before the close, in encounter order, whatever the
numeric values of the event ids. -/
theorem c2_first_last_encounter_order (cfg : Config) (p : String) (t1 t2 : Nat)
    (e : EvtData) (es : List EvtData) :
    (openRunClose cfg p t1 (e :: es) t2).emitted.map PerFileMetadata.fFirstEvent
        = some e.event
    ∧ (openRunClose cfg p t1 (e :: es) t2).emitted.map PerFileMetadata.fLastEvent
        = some (lastEvt es e).event := by
  constructor
  · rw [openRunClose_emitted]
    have h1 : (updateEvent { PerFileMetadata.default with fStartTime := t1 } e).fEventCount
        ≠ 0 := by simp [updateEvent, PerFileMetadata.default]
    have hfold : (List.foldl updateEvent { PerFileMetadata.default with fStartTime := t1 }
        (e :: es)).fFirstEvent
        = (updateEvent { PerFileMetadata.default with fStartTime := t1 } e).fFirstEvent := by
      rw [List.foldl_cons]
      exact foldl_updateEvent_first es _ h1
    have hfe : (updateEvent { PerFileMetadata.default with fStartTime := t1 } e).fFirstEvent
        = e.event := by
      simp [updateEvent, PerFileMetadata.default]
    exact congrArg some (hfold.trans hfe)
  · rw [openRunClose_emitted]
    exact congrArg some (foldl_updateEvent_last es e _)

/-- Claim C3: `fillMetadata` emits one mapping entry per element of each
multi-valued fact: for a record with exactly 2 distinct run numbers and 3
distinct parents (and no stray pairs of those names in its multimap), it
produces exactly 2 entries named "runs" and exactly 3 entries named
"parents". -/
theorem c3_fillMetadata_multiplicity (r : PerFileMetadata)
    (hnv : ∀ pr ∈ r.fNVPairs, pr.1 ≠ "runs" ∧ pr.1 ≠ "parents")
    (hruns : r.fRunNumbers.length = 2) (hpar : r.fParents.length = 3) :
    (fillMetadata r).countP (fun pr => pr.1 == "runs") = 2
    ∧ (fillMetadata r).countP (fun pr => pr.1 == "parents") = 3 := by
  have hz1 : r.fNVPairs.countP (fun pr => pr.1 == "runs") = 0 := by
    rw [List.countP_eq_zero]
    intro pr hpr
    simpa using (hnv pr hpr).1
  have hz2 : r.fNVPairs.countP (fun pr => pr.1 == "parents") = 0 := by
    rw [List.countP_eq_zero]
    intro pr hpr
    simpa using (hnv pr hpr).2
  constructor <;>
    simp [fillMetadata, List.countP_append, List.countP_map, List.countP_cons,
      Function.comp_def, hz1, hz2, hruns, hpar]

theorem c3_fillMetadata_multiplicity_witness :
    (∀ pr ∈ ([("x", "y")] : List (String × String)), pr.1 ≠ "runs" ∧ pr.1 ≠ "parents")
    ∧ (fillMetadata ⟨[4, 7], [5], ["a", "b", "c"], 0, 0, 0, 0, 0, [("x", "y")]⟩).countP
        (fun pr => pr.1 == "runs") = 2
    ∧ (fillMetadata ⟨[4, 7], [5], ["a", "b", "c"], 0, 0, 0, 0, 0, [("x", "y")]⟩).countP
        (fun pr => pr.1 == "parents") = 3 := by
  have h := c3_fillMetadata_multiplicity
    ⟨[4, 7], [5], ["a", "b", "c"], 0, 0, 0, 0, 0, [("x", "y")]⟩
    (by decide) rfl rfl
  exact ⟨by decide, h.1, h.2⟩

/-- Claim C4: the `num` template field expands to the decimal sequence
number of the output file (1-based by default, or starting at the optional
non-negative argument), and the sequence number increments once per output
file: "run1.root", "run2.root", ... for the successive files of a job. -/
theorem c4_num_sequence :
    (∀ k : Nat, expandTemplate (sampleCtx k) "run${num}.root"
        = Except.ok ("run" ++ natToString k ++ ".root"))
    ∧ expandTemplate (sampleCtx 1) "${num 0}" = Except.ok "0"
    ∧ expandTemplate (sampleCtx 2) "${num 0}" = Except.ok "1"
    ∧ (∀ (s : TrackerState) (p : String) (t : Nat),
        (onOutputFileOpened s p t).outputFileCount = s.outputFileCount + 1) := by
  refine ⟨?_, rfl, rfl, fun s p t => rfl⟩
  intro k
  have h : 1 + k - 1 = k := by omega
  calc expandTemplate (sampleCtx k) "run${num}.root"
      = Except.ok ("run" ++ natToString (1 + k - 1) ++ ".root") := rfl
    _ = Except.ok ("run" ++ natToString k ++ ".root") := by rw [h]

/-- Claim C5: the `bnum` template field behaves like `num` except that it
expands to the empty string for the very first output file of the job:
"${bnum}data.root" gives "data.root" for the first file and "2data.root"
for the second. -/
theorem c5_bnum_blank_first :
    (∀ (k : Nat) (arg : Option (List Char)),
      expandField (sampleCtx k) "bnum".data arg
        = if k = 1 then [] else expandField (sampleCtx k) "num".data arg)
    ∧ expandTemplate (sampleCtx 1) "${bnum}data.root" = Except.ok "data.root"
    ∧ expandTemplate (sampleCtx 2) "${bnum}data.root" = Except.ok "2data.root" :=
  ⟨fun _ _ => rfl, rfl, rfl⟩

/-- Claim C6: if a file already exists at the computed destination and
overwrite is disabled, the rename is skipped with a warning and the
filesystem (hence the original file name) is unchanged; with overwrite
enabled the existing destination is replaced by the renamed file. -/
theorem c6_rename_overwrite_policy (fs : List String) (oldName newName : String)
    (h : newName ∈ fs) :
    renameOutputFile fs oldName newName false = (fs, true)
    ∧ (oldName ≠ newName →
        newName ∈ (renameOutputFile fs oldName newName true).1
        ∧ oldName ∉ (renameOutputFile fs oldName newName true).1
        ∧ (renameOutputFile fs oldName newName true).2 = false) := by
  constructor
  · simp [renameOutputFile, h]
  · intro hne
    refine ⟨?_, ?_, ?_⟩ <;> simp [renameOutputFile, List.mem_filter, hne]

theorem c6_rename_overwrite_policy_witness :
    ("b" ∈ ["a", "b"])
    ∧ renameOutputFile ["a", "b"] "a" "b" false = (["a", "b"], true)
    ∧ "b" ∈ (renameOutputFile ["a", "b"] "a" "b" true).1
    ∧ "a" ∉ (renameOutputFile ["a", "b"] "a" "b" true).1 := by
  have h := c6_rename_overwrite_policy ["a", "b"] "a" "b" (by decide)
  exact ⟨by decide, h.1, (h.2 (by decide)).1, (h.2 (by decide)).2.1⟩

/-- Claim C7: a close notification for a path with no open record logs a
warning and is a no-op: non-fatal, no record emitted, and the tracker's
state (in particular the per-file record map) unchanged. -/
theorem c7_close_untracked_noop (cfg : Config) (s : TrackerState) (path : String)
    (t : Nat) (h : mapLookup path s.perFileMap = none ∨ path ∉ s.outputFiles) :
    onOutputFileClosed cfg s path t = ⟨s, none, true⟩ := by
  cases h with
  | inl h => simp [onOutputFileClosed, h]
  | inr h =>
    cases hl : mapLookup path s.perFileMap with
    | none => simp [onOutputFileClosed, hl]
    | some r => simp [onOutputFileClosed, hl, h]

theorem c7_close_untracked_noop_witness :
    (mapLookup "f" initialState.perFileMap = none ∨ "f" ∉ initialState.outputFiles)
    ∧ onOutputFileClosed ⟨[], []⟩ initialState "f" 0 = ⟨initialState, none, true⟩ :=
  ⟨Or.inl rfl, c7_close_untracked_noop ⟨[], []⟩ initialState "f" 0 (Or.inl rfl)⟩

/-- Claim C8: when multiple output files are simultaneously open, an event
notification applies its update to every currently-open per-file record,
and leaves records of files that are not open unchanged. -/
theorem c8_updates_all_open (s : TrackerState) (e : EvtData) (p : String)
    (r : PerFileMetadata) (hmem : (p, r) ∈ s.perFileMap) :
    (p ∈ s.outputFiles → (p, updateEvent r e) ∈ (onEventProcessed s e).perFileMap)
    ∧ (p ∉ s.outputFiles → (p, r) ∈ (onEventProcessed s e).perFileMap) := by
  constructor <;> intro hp
  · exact List.mem_map.mpr ⟨(p, r), hmem, by simp [hp]⟩
  · exact List.mem_map.mpr ⟨(p, r), hmem, by simp [hp]⟩

theorem c8_updates_all_open_witness :
    (("a", PerFileMetadata.default) ∈ demoState.perFileMap)
    ∧ (("b", PerFileMetadata.default) ∈ demoState.perFileMap)
    ∧ ("a", updateEvent PerFileMetadata.default demoEvt)
        ∈ (onEventProcessed demoState demoEvt).perFileMap
    ∧ ("b", updateEvent PerFileMetadata.default demoEvt)
        ∈ (onEventProcessed demoState demoEvt).perFileMap := by
  refine ⟨by decide, by decide, ?_, ?_⟩
  · exact (c8_updates_all_open demoState demoEvt "a" PerFileMetadata.default
      (by decide)).1 (by decide)
  · exact (c8_updates_all_open demoState demoEvt "b" PerFileMetadata.default
      (by decide)).1 (by decide)

/-- Claim C9: along any trace whose wall-clock times are nondecreasing,
every per-file record of a file that has been closed (no longer among the
open output files) satisfies `fStartTime ≤ fEndTime`. -/
theorem c9_startTime_le_endTime (cfg : Config) (tr : List TraceEvent) (t0 : Nat)
    (hmono : timesMonoFrom t0 tr = true) (p : String) (r : PerFileMetadata)
    (hmem : (p, r) ∈ (runTracker cfg initialState tr).perFileMap)
    (hclosed : p ∉ (runTracker cfg initialState tr).outputFiles) :
    r.fStartTime ≤ r.fEndTime := by
  have hinit : timeInvariant initialState t0 := by
    intro q r' hm
    simp [initialState] at hm
  obtain ⟨t', hinv⟩ := runTracker_timeInvariant cfg tr initialState t0 hinit hmono
  exact (hinv p r hmem).2 hclosed

theorem c9_startTime_le_endTime_witness :
    timesMonoFrom 0 [TraceEvent.fileOpen "a" 1, TraceEvent.fileClose "a" 2] = true
    ∧ ("a", finalizeRecord ⟨[], []⟩ { PerFileMetadata.default with fStartTime := 1 } 2)
        ∈ (runTracker ⟨[], []⟩ initialState
            [TraceEvent.fileOpen "a" 1, TraceEvent.fileClose "a" 2]).perFileMap
    ∧ "a" ∉ (runTracker ⟨[], []⟩ initialState
            [TraceEvent.fileOpen "a" 1, TraceEvent.fileClose "a" 2]).outputFiles
    ∧ (finalizeRecord ⟨[], []⟩ { PerFileMetadata.default with fStartTime := 1 } 2).fStartTime
        ≤ (finalizeRecord ⟨[], []⟩ { PerFileMetadata.default with fStartTime := 1 } 2).fEndTime := by
  refine ⟨by decide, by decide, by decide, ?_⟩
  exact c9_startTime_le_endTime ⟨[], []⟩
    [TraceEvent.fileOpen "a" 1, TraceEvent.fileClose "a" 2] 0 (by decide)
    "a" (finalizeRecord ⟨[], []⟩ { PerFileMetadata.default with fStartTime := 1 } 2)
    (by decide) (by decide)

/-- Claim C10: a file opened and then closed with no event notifications in
between yields a finalized record with the default-constructed values:
first event 0, last event 0, event count 0, and empty run-number,
subrun-number and parent sets. -/
theorem c10_zero_event_defaults (cfg : Config) (p : String) (t1 t2 : Nat) :
    (openRunClose cfg p t1 [] t2).emitted.map PerFileMetadata.fFirstEvent = some 0
    ∧ (openRunClose cfg p t1 [] t2).emitted.map PerFileMetadata.fLastEvent = some 0
    ∧ (openRunClose cfg p t1 [] t2).emitted.map PerFileMetadata.fEventCount = some 0
    ∧ (openRunClose cfg p t1 [] t2).emitted.map PerFileMetadata.fRunNumbers = some []
    ∧ (openRunClose cfg p t1 [] t2).emitted.map PerFileMetadata.fSubRunNumbers = some []
    ∧ (openRunClose cfg p t1 [] t2).emitted.map PerFileMetadata.fParents = some [] := by
  refine ⟨?_, ?_, ?_, ?_, ?_, ?_⟩ <;>
    simp [openRunClose_emitted, finalizeRecord, PerFileMetadata.default]

end FCMeta
